import Mathlib

/-!
Shallow embedding of the turbulent-ci core (src/models.rs, src/ci_runner.rs,
src/web_server.rs) and verification of its specification claims.

Rust `Uuid` values are modelled as `Nat`, `u64` as `Nat` (no arithmetic that
could overflow occurs in the modelled code), `HashMap<Uuid, RepositoryState>`
as an association list with unique keys, `Vec<T>` as `List T`.
-/

set_option autoImplicit false

namespace TurbulentCI

/-- `ProjectType` from src/config.rs. -/
inductive ProjectType where
  | Rust
  | Python
  | Node
  | Generic
deriving DecidableEq, Repr

/-- The string `format!("{:?}", project_type)` produces for a `ProjectType`. -/
def ProjectType.fmt : ProjectType → String
  | .Rust => "Rust"
  | .Python => "Python"
  | .Node => "Node"
  | .Generic => "Generic"

/-- `Repository` from src/config.rs. -/
structure Repository where
  id : Nat
  name : String
  path : String
  project_type : ProjectType
  commands : List String
  enabled : Bool
deriving DecidableEq, Repr

/-- `BuildResult` from src/models.rs. -/
structure BuildResult where
  id : Nat
  repository_id : Nat
  repository_name : String
  success : Bool
  output : String
  timestamp : Nat
  commit_hash : String
  duration_ms : Nat
  repo_path : String
  project_type : String
deriving DecidableEq, Repr

/-- `RepoInfo` from src/models.rs. -/
structure RepoInfo where
  path : String
  branch : String
  last_commit : String
  commands : List String
  project_type : String
deriving DecidableEq, Repr

/-- `RepositoryState` from src/models.rs. -/
structure RepositoryState where
  repository : Repository
  builds : List BuildResult
  current_status : String
  repo_info : RepoInfo
deriving DecidableEq, Repr

/-- Lookup in the repositories map (`HashMap::get` / `get_mut` found case). -/
def getRepo? : List (Nat × RepositoryState) → Nat → Option RepositoryState
  | [], _ => none
  | p :: rest, k => if p.1 = k then some p.2 else getRepo? rest k

/-- `HashMap::insert`: replaces the value if the key is present, else adds the
entry. -/
def insertRepo : List (Nat × RepositoryState) → Nat → RepositoryState →
    List (Nat × RepositoryState)
  | [], k, v => [(k, v)]
  | p :: rest, k, v => if p.1 = k then (k, v) :: rest else p :: insertRepo rest k v

/-- `HashMap::get_mut` followed by in-place mutation of the entry: applies `f`
to the value at `k` when present, identity otherwise. -/
def updateRepo : List (Nat × RepositoryState) → Nat → (RepositoryState → RepositoryState) →
    List (Nat × RepositoryState)
  | [], _, _ => []
  | p :: rest, k, f => if p.1 = k then (p.1, f p.2) :: rest else p :: updateRepo rest k f

/-- `GlobalState` from src/models.rs. -/
structure GlobalState where
  repositories : List (Nat × RepositoryState)
  recent_builds : List BuildResult
deriving DecidableEq, Repr

/-- `GlobalState::new`. -/
def GlobalState.new : GlobalState :=
  { repositories := [], recent_builds := [] }

/-- The fresh `RepositoryState` built inside `GlobalState::add_repository_state`
(src/models.rs lines 52-65): empty history, status `Starting...`, repo info
with branch and commit `unknown`. -/
def initialRepositoryState (repository : Repository) : RepositoryState :=
  { repository := repository
    builds := []
    current_status := "Starting..."
    repo_info :=
      { path := repository.path
        branch := "unknown"
        last_commit := "unknown"
        commands := repository.commands
        project_type := repository.project_type.fmt } }

/-- `GlobalState::add_repository_state` (src/models.rs lines 51-68). -/
def GlobalState.add_repository_state (s : GlobalState) (repository : Repository) :
    GlobalState :=
  { s with repositories :=
      insertRepo s.repositories repository.id (initialRepositoryState repository) }

/-- `GlobalState::add_build` (src/models.rs lines 70-88). -/
def GlobalState.add_build (s : GlobalState) (build : BuildResult) : GlobalState :=
  let repos :=
    match getRepo? s.repositories build.repository_id with
    | some _ =>
        updateRepo s.repositories build.repository_id (fun repo_state =>
          let bs := build :: repo_state.builds
          { repo_state with builds := if bs.length > 50 then bs.take 50 else bs })
    | none => s.repositories
  let rb := build :: s.recent_builds
  { repositories := repos
    recent_builds := if rb.length > 100 then rb.take 100 else rb }

/-- `GlobalState::update_repository_status` (src/models.rs lines 90-94). -/
def GlobalState.update_repository_status (s : GlobalState) (repo_id : Nat)
    (status : String) : GlobalState :=
  let f := fun (repo_state : RepositoryState) => { repo_state with current_status := status }
  { s with repositories := updateRepo s.repositories repo_id f }

/-- `GlobalState::update_repository_info` (src/models.rs lines 96-101). -/
def GlobalState.update_repository_info (s : GlobalState) (repo_id : Nat)
    (branch : String) (commit : String) : GlobalState :=
  let f := fun (repo_state : RepositoryState) =>
    { repo_state with repo_info :=
        { repo_state.repo_info with branch := branch, last_commit := commit } }
  { s with repositories := updateRepo s.repositories repo_id f }

/-- One logical operation on the shared Store, as invoked by the Monitors. -/
inductive StoreOp where
  | register (repository : Repository)
  | setStatus (repo_id : Nat) (status : String)
  | setRepoInfo (repo_id : Nat) (branch commit : String)
  | appendBuild (build : BuildResult)
deriving DecidableEq, Repr

/-- Apply one Store operation to the state. -/
def applyOp (s : GlobalState) : StoreOp → GlobalState
  | .register repository => s.add_repository_state repository
  | .setStatus repo_id status => s.update_repository_status repo_id status
  | .setRepoInfo repo_id branch commit => s.update_repository_info repo_id branch commit
  | .appendBuild build => s.add_build build

/-- Apply a sequence of Store operations in order. -/
def applyOps (s : GlobalState) (ops : List StoreOp) : GlobalState :=
  ops.foldl applyOp s

/-- The builds appended by a sequence of Store operations, in append order. -/
def appendedBuilds : List StoreOp → List BuildResult
  | [] => []
  | .appendBuild b :: rest => b :: appendedBuilds rest
  | _ :: rest => appendedBuilds rest

/-- Outcome of one `execute_command` call (src/ci_runner.rs lines 123-141):
either the process failed to spawn (`Err(e)` in the Rust code) or it ran and
produced stdout, stderr and a success flag. -/
inductive CmdOutcome where
  | spawnErr (msg : String)
  | exited (stdout stderr : String) (success : Bool)
deriving DecidableEq, Repr

/-- Whether a step outcome counts as a success in `run_commands`. -/
def CmdOutcome.ok : CmdOutcome → Bool
  | .spawnErr _ => false
  | .exited _ _ success => success

/-- The text `run_commands` pushes onto `all_output` for one attempted command
(src/ci_runner.rs lines 80-104). -/
def sectionFor (cmd : String) : CmdOutcome → String
  | .exited stdout stderr _ =>
      "=== " ++ cmd ++ " ===\n" ++ stdout ++
        (if stderr ≠ "" then "STDERR:\n" ++ stderr else "") ++ "\n"
  | .spawnErr e => "Failed to execute " ++ cmd ++ ": " ++ e ++ "\n"

/-- The command loop of `run_commands` (src/ci_runner.rs lines 75-105): each
step is a command string paired with the outcome its `execute_command` call
produced. Returns the accumulated `all_output` and the `success` flag. -/
def runCommandsLoop : List (String × CmdOutcome) → String × Bool
  | [] => ("", true)
  | (cmd, out) :: rest =>
      let sec := sectionFor cmd out
      if out.ok then
        let r := runCommandsLoop rest
        (sec ++ r.1, r.2)
      else
        (sec, false)

/-- `CiRunner`'s own fields (src/ci_runner.rs lines 10-15); the shared
`global_state` is passed explicitly. -/
structure CiRunner where
  repository : Repository
  last_commit : Option String
  build_counter : Nat
deriving DecidableEq, Repr

/-- `CiRunner::run_commands` (src/ci_runner.rs lines 59-121). The external
process outcomes are supplied as `steps`; the wall-clock readings as
`timestamp` and `duration_ms`. Returns the state after the initial
`Building...` status update together with the `BuildResult`. -/
def CiRunner.run_commands (runner : CiRunner) (s : GlobalState)
    (steps : List (String × CmdOutcome)) (commit_hash : String)
    (timestamp duration_ms : Nat) : GlobalState × BuildResult :=
  let s1 := s.update_repository_status runner.repository.id "Building..."
  let r := runCommandsLoop steps
  (s1,
    { id := runner.build_counter
      repository_id := runner.repository.id
      repository_name := runner.repository.name
      success := r.2
      output := r.1
      timestamp := timestamp
      commit_hash := commit_hash
      duration_ms := duration_ms
      repo_path := runner.repository.path
      project_type := runner.repository.project_type.fmt })

/-- Result of one `check_and_build` call: the updated runner, the updated
shared state, and `some e` when the call returned `Err(e)`. -/
structure TickResult where
  runner : CiRunner
  state : GlobalState
  err : Option String
deriving DecidableEq, Repr

/-- `CiRunner::check_and_build` (src/ci_runner.rs lines 143-182). The outcome
of `get_latest_commit` is supplied as `commitFetch`, the build-step outcomes as
`steps`, and the outcome of `get_current_branch` as `branchFetch` (`some b` for
`Ok(b)`, `none` for an error, which the code ignores). -/
def CiRunner.check_and_build (runner : CiRunner) (s : GlobalState)
    (commitFetch : Except String String) (steps : List (String × CmdOutcome))
    (branchFetch : Option String) (timestamp duration_ms : Nat) : TickResult :=
  match commitFetch with
  | .error e => { runner := runner, state := s, err := some e }
  | .ok current_commit =>
      if runner.last_commit = some current_commit then
        { runner := runner, state := s, err := none }
      else
        let runner1 := { runner with build_counter := runner.build_counter + 1 }
        let sr := runner1.run_commands s steps current_commit timestamp duration_ms
        let result := sr.2
        let s2 := sr.1.add_build result
        let status := if result.success then "Passing" else "Failed"
        let s3 := s2.update_repository_status runner.repository.id status
        let s4 :=
          match branchFetch with
          | some branch => s3.update_repository_info runner.repository.id branch current_commit
          | none => s3
        { runner := { runner1 with last_commit := some current_commit }
          state := s4
          err := none }

/-- One iteration of the `CiRunner::run` loop body (src/ci_runner.rs lines
195-213): call `check_and_build`; on success reset a lingering `Building...`
status to `Idle`; on error write `Error: {e}` as the status. -/
def CiRunner.run_tick (runner : CiRunner) (s : GlobalState)
    (commitFetch : Except String String) (steps : List (String × CmdOutcome))
    (branchFetch : Option String) (timestamp duration_ms : Nat) :
    CiRunner × GlobalState :=
  let t := runner.check_and_build s commitFetch steps branchFetch timestamp duration_ms
  match t.err with
  | none =>
      match getRepo? t.state.repositories runner.repository.id with
      | some repo_state =>
          if repo_state.current_status = "Building..." then
            (t.runner, t.state.update_repository_status runner.repository.id "Idle")
          else (t.runner, t.state)
      | none => (t.runner, t.state)
  | some e =>
      (t.runner, t.state.update_repository_status runner.repository.id ("Error: " ++ e))

/-- Response of the `/api/build/{id}` handler: either a `BuildResult` payload
or the error payload. -/
inductive BuildDetailResponse where
  | found (build : BuildResult)
  | notFound
deriving DecidableEq, Repr

/-- `get_build_detail` (src/web_server.rs lines 87-94): the first entry of
`recent_builds` whose `id` matches, else the payload
`\x7b"error": "Build not found"\x7d` (modelled as `notFound`). -/
def get_build_detail (id : Nat) (s : GlobalState) : BuildDetailResponse :=
  match s.recent_builds.find? (fun b => b.id == id) with
  | some build => .found build
  | none => .notFound

/-- The keys of the repositories map. -/
def repoKeys : List (Nat × RepositoryState) → List Nat
  | [] => []
  | p :: rest => p.1 :: repoKeys rest

/-- Operation sequences as the Monitors actually produce them: a repository id
is registered before any of its builds is appended, and never registered
twice. `regs` is the list of ids registered so far. -/
def WFops : List Nat → List StoreOp → Bool
  | _, [] => true
  | regs, .register repo :: rest =>
      decide (repo.id ∉ regs) && WFops (repo.id :: regs) rest
  | regs, .appendBuild b :: rest =>
      decide (b.repository_id ∈ regs) && WFops regs rest
  | regs, .setStatus _ _ :: rest => WFops regs rest
  | regs, .setRepoInfo _ _ _ :: rest => WFops regs rest

/-- The builds of a list that belong to repository `r`, in order. -/
def buildsFor (r : Nat) (bs : List BuildResult) : List BuildResult :=
  bs.filter (fun b => decide (b.repository_id = r))

/-- Every build stored in a repository entry carries that entry's key as its
`repository_id`. -/
def keyMatchInv (s : GlobalState) : Prop :=
  ∀ p ∈ s.repositories, ∀ b ∈ p.2.builds, b.repository_id = p.1

/-- The steps the executor actually attempts: every step up to and including
the first failing one (fail-fast). -/
def attempted : List (String × CmdOutcome) → List (String × CmdOutcome)
  | [] => []
  | (cmd, out) :: rest =>
      if out.ok then (cmd, out) :: attempted rest else [(cmd, out)]

/-- The transcript produced by a list of attempted steps: the concatenation of
their sections in order. -/
def transcriptOf : List (String × CmdOutcome) → String
  | [] => ""
  | (cmd, out) :: rest => sectionFor cmd out ++ transcriptOf rest

/-! ### Concrete fixtures -/

/-- A concrete repository used in witnesses and counterexamples. -/
def repoA : Repository :=
  { id := 1, name := "alpha", path := "/tmp/alpha", project_type := ProjectType.Rust,
    commands := ["cargo check"], enabled := true }

/-- A fresh Monitor for `repoA`. -/
def runnerA : CiRunner :=
  { repository := repoA, last_commit := none, build_counter := 0 }

/-- A concrete build result with the given sequence number and repository id. -/
def mkBuild (n rid : Nat) : BuildResult :=
  { id := n, repository_id := rid, repository_name := "alpha", success := true,
    output := "", timestamp := 0, commit_hash := "deadbeef", duration_ms := 0,
    repo_path := "/tmp/alpha", project_type := "Rust" }

/-- 101 distinct builds for repository id 1, appended in order of their
sequence numbers. -/
def bs101 : List BuildResult := (List.range 101).map (fun n => mkBuild n 1)

/-- A build whose repository id (42) is registered nowhere. -/
def orphanBuild : BuildResult := mkBuild 1 42

/-- A state in which `repoA` is registered and its status was then set to
`Idle`, so re-registration is observable. -/
def stateC1 : GlobalState :=
  (GlobalState.new.add_repository_state repoA).update_repository_status 1 "Idle"

/-! ### Association-map lemmas -/

theorem getRepo?_insertRepo (m : List (Nat × RepositoryState)) (k : Nat)
    (v : RepositoryState) (j : Nat) :
    getRepo? (insertRepo m k v) j = if j = k then some v else getRepo? m j := by
  induction m with
  | nil =>
      by_cases h : j = k
      · simp [insertRepo, getRepo?, h]
      · have h' : ¬ k = j := fun hh => h hh.symm
        simp [insertRepo, getRepo?, h, h']
  | cons p rest ih =>
      by_cases hpk : p.1 = k
      · by_cases hj : j = k
        · simp [insertRepo, getRepo?, hpk, hj]
        · have h1 : ¬ k = j := fun hh => hj hh.symm
          have h2 : ¬ p.1 = j := fun hh => hj (hh.symm.trans hpk)
          simp [insertRepo, getRepo?, hpk, hj, h1, h2]

      · by_cases hj : p.1 = j
        · have h1 : ¬ j = k := fun hh => hpk (hj.trans hh)
          simp [insertRepo, getRepo?, hpk, hj, h1]
        · simp [insertRepo, getRepo?, hpk, hj, ih]

theorem getRepo?_updateRepo (m : List (Nat × RepositoryState)) (k : Nat)
    (f : RepositoryState → RepositoryState) (j : Nat) :
    getRepo? (updateRepo m k f) j =
      if j = k then (getRepo? m j).map f else getRepo? m j := by
  induction m with
  | nil =>
      by_cases h : j = k <;> simp [updateRepo, getRepo?, h]
  | cons p rest ih =>
      by_cases hpk : p.1 = k
      · by_cases hj : j = k
        · simp [updateRepo, getRepo?, hpk, hj, hpk.trans hj.symm]
        · have h1 : ¬ k = j := fun hh => hj hh.symm
          have h2 : ¬ p.1 = j := fun hh => hj (hh.symm.trans hpk)
          simp [updateRepo, getRepo?, hpk, hj, h1, h2]
      · by_cases hj : p.1 = j
        · have h1 : ¬ j = k := fun hh => hpk (hj.trans hh)
          simp [updateRepo, getRepo?, hpk, hj, h1]
        · simp [updateRepo, getRepo?, hpk, hj, ih]

theorem getRepo?_eq_some_mem {m : List (Nat × RepositoryState)} {k : Nat}
    {v : RepositoryState} (h : getRepo? m k = some v) : (k, v) ∈ m := by
  induction m with
  | nil => simp [getRepo?] at h
  | cons p rest ih =>
      rcases p with ⟨pk, pv⟩
      by_cases hpk : pk = k
      · simp only [getRepo?, if_pos hpk] at h
        injection h with h2
        subst hpk
        subst h2
        exact List.mem_cons_self _ _
      · simp only [getRepo?, if_neg hpk] at h
        exact List.mem_cons_of_mem _ (ih h)

theorem mem_repoKeys_of_mem {m : List (Nat × RepositoryState)} {k : Nat}
    {v : RepositoryState} (h : (k, v) ∈ m) : k ∈ repoKeys m := by
  induction m with
  | nil => simp at h
  | cons p rest ih =>
      rcases List.mem_cons.1 h with h' | h'
      · rw [← h']
        exact List.mem_cons_self _ _
      · exact List.mem_cons_of_mem _ (ih h')

theorem getRepo?_eq_none_iff (m : List (Nat × RepositoryState)) (k : Nat) :
    getRepo? m k = none ↔ k ∉ repoKeys m := by
  induction m with
  | nil => simp [getRepo?, repoKeys]
  | cons p rest ih =>
      by_cases hpk : p.1 = k
      · have hk : k ∈ repoKeys (p :: rest) := by
          simp only [repoKeys]
          exact List.mem_cons.2 (Or.inl hpk.symm)
        simp only [getRepo?, if_pos hpk]
        constructor
        · intro h
          exact absurd h (by simp)
        · intro h
          exact absurd hk h
      · have h1 : ¬ k = p.1 := fun hh => hpk hh.symm
        simp [getRepo?, repoKeys, hpk, h1, ih]

theorem repoKeys_updateRepo (m : List (Nat × RepositoryState)) (k : Nat)
    (f : RepositoryState → RepositoryState) :
    repoKeys (updateRepo m k f) = repoKeys m := by
  induction m with
  | nil => rfl
  | cons p rest ih =>
      by_cases hpk : p.1 = k
      · simp [updateRepo, repoKeys, hpk]
      · simp [updateRepo, repoKeys, hpk, ih]

theorem mem_repoKeys_insertRepo (m : List (Nat × RepositoryState)) (k : Nat)
    (v : RepositoryState) (j : Nat) :
    j ∈ repoKeys (insertRepo m k v) ↔ j ∈ repoKeys m ∨ j = k := by
  induction m with
  | nil => simp [insertRepo, repoKeys]
  | cons p rest ih =>
      by_cases hpk : p.1 = k
      · simp [insertRepo, repoKeys, hpk]
        tauto
      · simp [insertRepo, repoKeys, hpk, ih]
        tauto

theorem nodup_repoKeys_insertRepo (m : List (Nat × RepositoryState)) (k : Nat)
    (v : RepositoryState) (h : (repoKeys m).Nodup) :
    (repoKeys (insertRepo m k v)).Nodup := by
  induction m with
  | nil => simp [insertRepo, repoKeys]
  | cons p rest ih =>
      simp only [repoKeys, List.nodup_cons] at h
      obtain ⟨h1, h2⟩ := h
      by_cases hpk : p.1 = k
      · simp only [insertRepo, if_pos hpk, repoKeys, List.nodup_cons]
        exact ⟨by rw [← hpk]; exact h1, h2⟩
      · simp only [insertRepo, if_neg hpk, repoKeys, List.nodup_cons]
        refine ⟨?_, ih h2⟩
        rw [mem_repoKeys_insertRepo]
        rintro (hm | hm)
        · exact h1 hm
        · exact hpk hm

theorem mem_insertRepo {m : List (Nat × RepositoryState)} {k : Nat}
    {v : RepositoryState} {p : Nat × RepositoryState} (h : p ∈ insertRepo m k v) :
    p ∈ m ∨ p = (k, v) := by
  induction m with
  | nil =>
      simp [insertRepo] at h
      exact Or.inr h
  | cons q rest ih =>
      by_cases hqk : q.1 = k
      · simp only [insertRepo, if_pos hqk, List.mem_cons] at h
        rcases h with h | h
        · exact Or.inr h
        · exact Or.inl (List.mem_cons_of_mem _ h)
      · simp only [insertRepo, if_neg hqk, List.mem_cons] at h
        rcases h with h | h
        · exact Or.inl (by rw [h]; exact List.mem_cons_self _ _)
        · rcases ih h with h' | h'
          · exact Or.inl (List.mem_cons_of_mem _ h')
          · exact Or.inr h'

theorem mem_updateRepo {m : List (Nat × RepositoryState)} {k : Nat}
    {f : RepositoryState → RepositoryState} {p : Nat × RepositoryState}
    (h : p ∈ updateRepo m k f) :
    p ∈ m ∨ ∃ q, q ∈ m ∧ q.1 = k ∧ p = (k, f q.2) := by
  induction m with
  | nil => simp [updateRepo] at h
  | cons q rest ih =>
      by_cases hqk : q.1 = k
      · simp only [updateRepo, if_pos hqk, List.mem_cons] at h
        rcases h with h | h
        · exact Or.inr ⟨q, List.mem_cons_self _ _, hqk, by rw [h, hqk]⟩
        · exact Or.inl (List.mem_cons_of_mem _ h)
      · simp only [updateRepo, if_neg hqk, List.mem_cons] at h
        rcases h with h | h
        · exact Or.inl (by rw [h]; exact List.mem_cons_self _ _)
        · rcases ih h with h' | ⟨q', hq', hk', hp'⟩
          · exact Or.inl (List.mem_cons_of_mem _ h')
          · exact Or.inr ⟨q', List.mem_cons_of_mem _ hq', hk', hp'⟩

theorem mem_to_getRepo? {m : List (Nat × RepositoryState)} {k : Nat}
    {v : RepositoryState} (hnd : (repoKeys m).Nodup) (h : (k, v) ∈ m) :
    getRepo? m k = some v := by
  induction m with
  | nil => simp at h
  | cons p rest ih =>
      simp only [repoKeys, List.nodup_cons] at hnd
      obtain ⟨h1, h2⟩ := hnd
      rcases List.mem_cons.1 h with h' | h'
      · rw [← h']
        simp [getRepo?]
      · have hk : k ∈ repoKeys rest := mem_repoKeys_of_mem h'
        have hpk : ¬ p.1 = k := fun he => h1 (he ▸ hk)
        simp only [getRepo?, if_neg hpk]
        exact ih h2 h'

/-! ### Take lemmas -/

theorem take_append_take {α : Type} (L M : List α) (n k : Nat) (h : n ≤ k) :
    (L ++ M.take k).take n = (L ++ M).take n := by
  induction L generalizing n with
  | nil => simp [List.take_take, Nat.min_eq_left h]
  | cons a L ih =>
      cases n with
      | zero => simp
      | succ n =>
          simp only [List.cons_append, List.take_succ_cons]
          rw [ih n (Nat.le_of_succ_le h)]

/-! ### Per-operation state lemmas -/

theorem recent_builds_add_build (s : GlobalState) (b : BuildResult) :
    (s.add_build b).recent_builds = (b :: s.recent_builds).take 100 := by
  by_cases hgt : (b :: s.recent_builds).length > 100
  · simp [GlobalState.add_build, hgt]
  · simp [GlobalState.add_build, hgt]

theorem recent_builds_add_repository_state (s : GlobalState) (repo : Repository) :
    (s.add_repository_state repo).recent_builds = s.recent_builds := rfl

theorem recent_builds_update_repository_status (s : GlobalState) (k : Nat) (st : String) :
    (s.update_repository_status k st).recent_builds = s.recent_builds := rfl

theorem recent_builds_update_repository_info (s : GlobalState) (k : Nat) (br cm : String) :
    (s.update_repository_info k br cm).recent_builds = s.recent_builds := rfl

theorem getRepo?_add_repository_state (s : GlobalState) (repo : Repository) (j : Nat) :
    getRepo? (s.add_repository_state repo).repositories j =
      if j = repo.id then some (initialRepositoryState repo)
      else getRepo? s.repositories j := by
  simp [GlobalState.add_repository_state, getRepo?_insertRepo]

theorem getRepo?_update_repository_status (s : GlobalState) (k : Nat) (st : String) (j : Nat) :
    getRepo? (s.update_repository_status k st).repositories j =
      if j = k then (getRepo? s.repositories j).map
        (fun repo_state => { repo_state with current_status := st })
      else getRepo? s.repositories j := by
  simp [GlobalState.update_repository_status, getRepo?_updateRepo]

theorem getRepo?_update_repository_info (s : GlobalState) (k : Nat) (br cm : String) (j : Nat) :
    getRepo? (s.update_repository_info k br cm).repositories j =
      if j = k then (getRepo? s.repositories j).map
        (fun repo_state => { repo_state with repo_info :=
          { repo_state.repo_info with branch := br, last_commit := cm } })
      else getRepo? s.repositories j := by
  simp [GlobalState.update_repository_info, getRepo?_updateRepo]

theorem getRepo?_add_build_self (s : GlobalState) (b : BuildResult)
    (rs : RepositoryState) (h : getRepo? s.repositories b.repository_id = some rs) :
    getRepo? (s.add_build b).repositories b.repository_id =
      some { rs with builds := (b :: rs.builds).take 50 } := by
  by_cases hgt : (b :: rs.builds).length > 50
  · simp [GlobalState.add_build, h, getRepo?_updateRepo, hgt]
  · simp [GlobalState.add_build, h, getRepo?_updateRepo, hgt]

theorem getRepo?_add_build_ne (s : GlobalState) (b : BuildResult) (j : Nat)
    (hj : j ≠ b.repository_id) :
    getRepo? (s.add_build b).repositories j = getRepo? s.repositories j := by
  cases hcase : getRepo? s.repositories b.repository_id with
  | none => simp [GlobalState.add_build, hcase]
  | some rs => simp [GlobalState.add_build, hcase, getRepo?_updateRepo, hj]

theorem repositories_add_build_none (s : GlobalState) (b : BuildResult)
    (h : getRepo? s.repositories b.repository_id = none) :
    (s.add_build b).repositories = s.repositories := by
  simp [GlobalState.add_build, h]

/-! ### Global-feed characterization -/

theorem feed_char (ops : List StoreOp) : ∀ s : GlobalState,
    s.recent_builds.length ≤ 100 →
    (applyOps s ops).recent_builds =
      ((appendedBuilds ops).reverse ++ s.recent_builds).take 100 := by
  induction ops with
  | nil =>
      intro s h
      simp [applyOps, appendedBuilds, List.take_of_length_le h]
  | cons op rest ih =>
      intro s h
      cases op with
      | register repo =>
          have : (applyOps s (.register repo :: rest)) =
              applyOps (s.add_repository_state repo) rest := rfl
          rw [this, ih _ (by simpa [recent_builds_add_repository_state] using h)]
          simp [recent_builds_add_repository_state, appendedBuilds]
      | setStatus k st =>
          have : (applyOps s (.setStatus k st :: rest)) =
              applyOps (s.update_repository_status k st) rest := rfl
          rw [this, ih _ (by simpa [recent_builds_update_repository_status] using h)]
          simp [recent_builds_update_repository_status, appendedBuilds]
      | setRepoInfo k br cm =>
          have : (applyOps s (.setRepoInfo k br cm :: rest)) =
              applyOps (s.update_repository_info k br cm) rest := rfl
          rw [this, ih _ (by simpa [recent_builds_update_repository_info] using h)]
          simp [recent_builds_update_repository_info, appendedBuilds]
      | appendBuild b =>
          have h1 : (s.add_build b).recent_builds = (b :: s.recent_builds).take 100 :=
            recent_builds_add_build s b
          have h2 : (s.add_build b).recent_builds.length ≤ 100 := by
            rw [h1, List.length_take]
            exact Nat.min_le_left _ _
          calc (applyOps s (.appendBuild b :: rest)).recent_builds
              = (applyOps (s.add_build b) rest).recent_builds := rfl
            _ = ((appendedBuilds rest).reverse ++ (s.add_build b).recent_builds).take 100 :=
                ih _ h2
            _ = ((appendedBuilds rest).reverse ++ (b :: s.recent_builds).take 100).take 100 := by
                rw [h1]
            _ = ((appendedBuilds rest).reverse ++ (b :: s.recent_builds)).take 100 :=
                take_append_take _ _ _ _ (Nat.le_refl 100)
            _ = (((appendedBuilds rest).reverse ++ [b]) ++ s.recent_builds).take 100 := by
                simp
            _ = ((appendedBuilds (.appendBuild b :: rest)).reverse ++ s.recent_builds).take 100 := by
                simp [appendedBuilds]

/-! ### Well-formed operation sequences and the history characterization -/

theorem history_char (ops : List StoreOp) : ∀ (s : GlobalState) (regs : List Nat)
    (past : Nat → List BuildResult),
    (∀ k, (getRepo? s.repositories k).isSome ↔ k ∈ regs) →
    WFops regs ops = true →
    (∀ k rs, getRepo? s.repositories k = some rs →
        rs.builds = ((past k).reverse).take 50) →
    ∀ k rs', getRepo? (applyOps s ops).repositories k = some rs' →
      rs'.builds =
        (((if k ∈ regs then past k else []) ++
            buildsFor k (appendedBuilds ops)).reverse).take 50 := by
  induction ops with
  | nil =>
      intro s regs past hregs hwf hpast k rs' hget
      have hsome : (getRepo? s.repositories k).isSome := by
        have : applyOps s [] = s := rfl
        rw [this] at hget
        rw [hget]
        rfl
      have hk : k ∈ regs := (hregs k).1 hsome
      have hget' : getRepo? s.repositories k = some rs' := hget
      simp [appendedBuilds, buildsFor, hk]
      exact hpast k rs' hget'
  | cons op rest ih =>
      intro s regs past hregs hwf hpast k rs' hget
      cases op with
      | register repo =>
          simp only [WFops, Bool.and_eq_true, decide_eq_true_eq] at hwf
          obtain ⟨hnotin, hwf'⟩ := hwf
          have hstep : applyOps s (.register repo :: rest) =
              applyOps (s.add_repository_state repo) rest := rfl
          rw [hstep] at hget
          have hregs2 : ∀ j, (getRepo? (s.add_repository_state repo).repositories j).isSome
              ↔ j ∈ repo.id :: regs := by
            intro j
            rw [getRepo?_add_repository_state]
            by_cases hj : j = repo.id
            · simp [hj]
            · simp [hj, hregs j]
          have hpast2 : ∀ j rs, getRepo? (s.add_repository_state repo).repositories j = some rs →
              rs.builds = (((fun j => if j = repo.id then [] else past j) j).reverse).take 50 := by
            intro j rs hj
            rw [getRepo?_add_repository_state] at hj
            by_cases hje : j = repo.id
            · rw [if_pos hje] at hj
              injection hj with hj
              simp [hje, ← hj, initialRepositoryState]
            · rw [if_neg hje] at hj
              simp only [if_neg hje]
              exact hpast j rs hj
          have hmain := ih (s.add_repository_state repo) (repo.id :: regs) _ hregs2 hwf' hpast2 k rs' hget
          rw [hmain]
          have happ : appendedBuilds (.register repo :: rest) = appendedBuilds rest := rfl
          rw [happ]
          by_cases hk : k = repo.id
          · have h1 : k ∈ repo.id :: regs := by simp [hk]
            have h2 : ¬ k ∈ regs := by rw [hk]; exact hnotin
            simp only [if_pos h1, if_pos hk, if_neg h2]
          · have h1 : k ∈ repo.id :: regs ↔ k ∈ regs := by simp [hk]
            simp only [h1, if_neg hk]
      | setStatus k0 st =>
          simp only [WFops] at hwf
          have hstep : applyOps s (.setStatus k0 st :: rest) =
              applyOps (s.update_repository_status k0 st) rest := rfl
          rw [hstep] at hget
          have hregs2 : ∀ j, (getRepo? (s.update_repository_status k0 st).repositories j).isSome
              ↔ j ∈ regs := by
            intro j
            rw [getRepo?_update_repository_status]
            by_cases hj : j = k0
            · rw [if_pos hj, ← hregs j]
              cases getRepo? s.repositories j with
              | none => simp
              | some rs0 => simp
            · rw [if_neg hj]
              exact hregs j
          have hpast2 : ∀ j rs, getRepo? (s.update_repository_status k0 st).repositories j = some rs →
              rs.builds = ((past j).reverse).take 50 := by
            intro j rs hj
            rw [getRepo?_update_repository_status] at hj
            by_cases hje : j = k0
            · rw [if_pos hje] at hj
              cases hcase : getRepo? s.repositories j with
              | none => rw [hcase] at hj; simp at hj
              | some rs0 =>
                  rw [hcase] at hj
                  simp only [Option.map_some'] at hj
                  injection hj with hj
                  rw [← hj]
                  exact hpast j rs0 hcase
            · rw [if_neg hje] at hj
              exact hpast j rs hj
          have hmain := ih _ regs past hregs2 hwf hpast2 k rs' hget
          rw [hmain]
          rfl
      | setRepoInfo k0 br cm =>
          simp only [WFops] at hwf
          have hstep : applyOps s (.setRepoInfo k0 br cm :: rest) =
              applyOps (s.update_repository_info k0 br cm) rest := rfl
          rw [hstep] at hget
          have hregs2 : ∀ j, (getRepo? (s.update_repository_info k0 br cm).repositories j).isSome
              ↔ j ∈ regs := by
            intro j
            rw [getRepo?_update_repository_info]
            by_cases hj : j = k0
            · rw [if_pos hj, ← hregs j]
              cases getRepo? s.repositories j with
              | none => simp
              | some rs0 => simp
            · rw [if_neg hj]
              exact hregs j
          have hpast2 : ∀ j rs, getRepo? (s.update_repository_info k0 br cm).repositories j = some rs →
              rs.builds = ((past j).reverse).take 50 := by
            intro j rs hj
            rw [getRepo?_update_repository_info] at hj
            by_cases hje : j = k0
            · rw [if_pos hje] at hj
              cases hcase : getRepo? s.repositories j with
              | none => rw [hcase] at hj; simp at hj
              | some rs0 =>
                  rw [hcase] at hj
                  simp only [Option.map_some'] at hj
                  injection hj with hj
                  rw [← hj]
                  exact hpast j rs0 hcase
            · rw [if_neg hje] at hj
              exact hpast j rs hj
          have hmain := ih _ regs past hregs2 hwf hpast2 k rs' hget
          rw [hmain]
          rfl
      | appendBuild b =>
          simp only [WFops, Bool.and_eq_true, decide_eq_true_eq] at hwf
          obtain ⟨hin, hwf'⟩ := hwf
          obtain ⟨rs0, hrs0⟩ : ∃ rs0, getRepo? s.repositories b.repository_id = some rs0 := by
            have := (hregs b.repository_id).2 hin
            cases hcase : getRepo? s.repositories b.repository_id with
            | none => rw [hcase] at this; simp at this
            | some rs0 => exact ⟨rs0, rfl⟩
          have hstep : applyOps s (.appendBuild b :: rest) =
              applyOps (s.add_build b) rest := rfl
          rw [hstep] at hget
          have hregs2 : ∀ j, (getRepo? (s.add_build b).repositories j).isSome ↔ j ∈ regs := by
            intro j
            by_cases hj : j = b.repository_id
            · rw [hj, getRepo?_add_build_self s b rs0 hrs0]
              simp only [Option.isSome_some, true_iff]
              exact hj ▸ hin
            · rw [getRepo?_add_build_ne s b j hj]
              exact hregs j
          have hpast2 : ∀ j rs, getRepo? (s.add_build b).repositories j = some rs →
              rs.builds = (((fun j => if j = b.repository_id then past j ++ [b] else past j) j).reverse).take 50 := by
            intro j rs hj
            by_cases hje : j = b.repository_id
            · rw [hje, getRepo?_add_build_self s b rs0 hrs0] at hj
              injection hj with hj
              have hb0 : rs0.builds = ((past j).reverse).take 50 := hje ▸ hpast _ rs0 hrs0
              rw [← hj]
              simp only [if_pos hje]
              show (b :: rs0.builds).take 50 = ((past j ++ [b]).reverse).take 50
              rw [hb0, List.reverse_append]
              show ([b] ++ ((past j).reverse).take 50).take 50 = ([b].reverse ++ (past j).reverse).take 50
              rw [take_append_take _ _ 50 50 (Nat.le_refl 50)]
              rfl
            · rw [getRepo?_add_build_ne s b j hje] at hj
              simp only [if_neg hje]
              exact hpast j rs hj
          have hmain := ih _ regs _ hregs2 hwf' hpast2 k rs' hget
          rw [hmain]
          have happ : appendedBuilds (.appendBuild b :: rest) = b :: appendedBuilds rest := rfl
          rw [happ]
          by_cases hk : k = b.repository_id
          · have hkin : k ∈ regs := by rw [hk]; exact hin
            have hfil : buildsFor k (b :: appendedBuilds rest) = b :: buildsFor k (appendedBuilds rest) := by
              simp [buildsFor, hk]
            rw [hfil]
            simp only [if_pos hkin, if_pos hk]
            rw [List.append_assoc, List.singleton_append]
          · have hfil : buildsFor k (b :: appendedBuilds rest) = buildsFor k (appendedBuilds rest) := by
              have : ¬ b.repository_id = k := fun hh => hk hh.symm
              simp [buildsFor, this]
            rw [hfil]
            simp only [if_neg hk]

/-! ### Registration is preserved by Store operations -/

theorem repositories_add_build_some (s : GlobalState) (b : BuildResult)
    (rs0 : RepositoryState) (h : getRepo? s.repositories b.repository_id = some rs0) :
    (s.add_build b).repositories =
      updateRepo s.repositories b.repository_id (fun repo_state =>
        { repo_state with builds :=
            if (b :: repo_state.builds).length > 50 then (b :: repo_state.builds).take 50
            else b :: repo_state.builds }) := by
  simp [GlobalState.add_build, h]

theorem isSome_getRepo?_add_build (s : GlobalState) (b : BuildResult) (j : Nat) :
    (getRepo? (s.add_build b).repositories j).isSome
      = (getRepo? s.repositories j).isSome := by
  by_cases hj : j = b.repository_id
  · cases hcase : getRepo? s.repositories b.repository_id with
    | none =>
        rw [show (s.add_build b).repositories = s.repositories from
          repositories_add_build_none s b hcase]
    | some rs0 =>
        rw [hj, getRepo?_add_build_self s b rs0 hcase, hcase]
        rfl
  · rw [getRepo?_add_build_ne s b j hj]

theorem isSome_getRepo?_update_status (s : GlobalState) (k0 : Nat) (st : String) (j : Nat) :
    (getRepo? (s.update_repository_status k0 st).repositories j).isSome
      = (getRepo? s.repositories j).isSome := by
  rw [getRepo?_update_repository_status]
  by_cases hj : j = k0
  · rw [if_pos hj]
    cases getRepo? s.repositories j <;> rfl
  · rw [if_neg hj]

theorem isSome_getRepo?_update_info (s : GlobalState) (k0 : Nat) (br cm : String) (j : Nat) :
    (getRepo? (s.update_repository_info k0 br cm).repositories j).isSome
      = (getRepo? s.repositories j).isSome := by
  rw [getRepo?_update_repository_info]
  by_cases hj : j = k0
  · rw [if_pos hj]
    cases getRepo? s.repositories j <;> rfl
  · rw [if_neg hj]

theorem isSome_applyOp (s : GlobalState) (op : StoreOp) (k : Nat)
    (h : (getRepo? s.repositories k).isSome) :
    (getRepo? (applyOp s op).repositories k).isSome := by
  cases op with
  | register repo =>
      show (getRepo? (s.add_repository_state repo).repositories k).isSome
      rw [getRepo?_add_repository_state]
      by_cases hj : k = repo.id
      · simp [hj]
      · rw [if_neg hj]
        exact h
  | setStatus k0 st =>
      show (getRepo? (s.update_repository_status k0 st).repositories k).isSome
      rw [isSome_getRepo?_update_status]
      exact h
  | setRepoInfo k0 br cm =>
      show (getRepo? (s.update_repository_info k0 br cm).repositories k).isSome
      rw [isSome_getRepo?_update_info]
      exact h
  | appendBuild b =>
      show (getRepo? (s.add_build b).repositories k).isSome
      rw [isSome_getRepo?_add_build]
      exact h

theorem isSome_applyOps (ops : List StoreOp) : ∀ (s : GlobalState) (k : Nat),
    (getRepo? s.repositories k).isSome →
    (getRepo? (applyOps s ops).repositories k).isSome := by
  induction ops with
  | nil => intro s k h; exact h
  | cons op rest ih =>
      intro s k h
      exact ih (applyOp s op) k (isSome_applyOp s op k h)

theorem appended_registered (ops : List StoreOp) : ∀ (s : GlobalState) (regs : List Nat),
    (∀ k, (getRepo? s.repositories k).isSome ↔ k ∈ regs) →
    WFops regs ops = true →
    ∀ b ∈ appendedBuilds ops,
      (getRepo? (applyOps s ops).repositories b.repository_id).isSome := by
  induction ops with
  | nil =>
      intro s regs hregs hwf b hb
      simp [appendedBuilds] at hb
  | cons op rest ih =>
      intro s regs hregs hwf b hb
      cases op with
      | register repo =>
          simp only [WFops, Bool.and_eq_true, decide_eq_true_eq] at hwf
          obtain ⟨hnotin, hwf'⟩ := hwf
          have hregs2 : ∀ j, (getRepo? (s.add_repository_state repo).repositories j).isSome
              ↔ j ∈ repo.id :: regs := by
            intro j
            rw [getRepo?_add_repository_state]
            by_cases hj : j = repo.id
            · simp [hj]
            · simp [hj, hregs j]
          exact ih (s.add_repository_state repo) (repo.id :: regs) hregs2 hwf' b hb
      | setStatus k0 st =>
          simp only [WFops] at hwf
          have hregs2 : ∀ j, (getRepo? (s.update_repository_status k0 st).repositories j).isSome
              ↔ j ∈ regs := by
            intro j
            rw [isSome_getRepo?_update_status]
            exact hregs j
          exact ih (s.update_repository_status k0 st) regs hregs2 hwf b hb
      | setRepoInfo k0 br cm =>
          simp only [WFops] at hwf
          have hregs2 : ∀ j, (getRepo? (s.update_repository_info k0 br cm).repositories j).isSome
              ↔ j ∈ regs := by
            intro j
            rw [isSome_getRepo?_update_info]
            exact hregs j
          exact ih (s.update_repository_info k0 br cm) regs hregs2 hwf b hb
      | appendBuild b0 =>
          simp only [WFops, Bool.and_eq_true, decide_eq_true_eq] at hwf
          obtain ⟨hin, hwf'⟩ := hwf
          have hregs2 : ∀ j, (getRepo? (s.add_build b0).repositories j).isSome ↔ j ∈ regs := by
            intro j
            rw [isSome_getRepo?_add_build]
            exact hregs j
          have hb' : b = b0 ∨ b ∈ appendedBuilds rest := by
            have : appendedBuilds (.appendBuild b0 :: rest) = b0 :: appendedBuilds rest := rfl
            rw [this] at hb
            exact List.mem_cons.1 hb
          rcases hb' with hb' | hb'
          · subst hb'
            have h1 : (getRepo? (s.add_build b).repositories b.repository_id).isSome := by
              rw [isSome_getRepo?_add_build]
              exact (hregs b.repository_id).2 hin
            exact isSome_applyOps rest (s.add_build b) b.repository_id h1
          · exact ih (s.add_build b0) regs hregs2 hwf' b hb'

/-! ### Structural invariants of the Store -/

theorem mem_of_mem_truncated {bs : List BuildResult} {b : BuildResult} {n : Nat}
    (h : b ∈ (if bs.length > n then bs.take n else bs)) : b ∈ bs := by
  by_cases hlen : bs.length > n
  · rw [if_pos hlen] at h
    exact List.take_subset n bs h
  · rw [if_neg hlen] at h
    exact h

theorem keyMatchInv_applyOp (s : GlobalState) (op : StoreOp) (h : keyMatchInv s) :
    keyMatchInv (applyOp s op) := by
  cases op with
  | register repo =>
      intro p hp b hb
      have hp2 : p ∈ insertRepo s.repositories repo.id (initialRepositoryState repo) := hp
      rcases mem_insertRepo hp2 with hp' | hp'
      · exact h p hp' b hb
      · rw [hp'] at hb
        simp [initialRepositoryState] at hb
  | setStatus k0 st =>
      intro p hp b hb
      have hp2 : p ∈ updateRepo s.repositories k0
          (fun repo_state => { repo_state with current_status := st }) := hp
      rcases mem_updateRepo hp2 with hp' | ⟨q, hq, hk, hp'⟩
      · exact h p hp' b hb
      · rw [hp'] at hb ⊢
        exact (h q hq b hb).trans hk
  | setRepoInfo k0 br cm =>
      intro p hp b hb
      have hp2 : p ∈ updateRepo s.repositories k0
          (fun repo_state => { repo_state with repo_info :=
            { repo_state.repo_info with branch := br, last_commit := cm } }) := hp
      rcases mem_updateRepo hp2 with hp' | ⟨q, hq, hk, hp'⟩
      · exact h p hp' b hb
      · rw [hp'] at hb ⊢
        exact (h q hq b hb).trans hk
  | appendBuild b0 =>
      intro p hp b hb
      have hp2 : p ∈ (s.add_build b0).repositories := hp
      cases hcase : getRepo? s.repositories b0.repository_id with
      | none =>
          rw [show (s.add_build b0).repositories = s.repositories from
            repositories_add_build_none s b0 hcase] at hp2
          exact h p hp2 b hb
      | some rs0 =>
          rw [repositories_add_build_some s b0 rs0 hcase] at hp2
          rcases mem_updateRepo hp2 with hp' | ⟨q, hq, hk, hp'⟩
          · exact h p hp' b hb
          · rw [hp'] at hb ⊢
            have hb2 : b ∈ b0 :: q.2.builds := mem_of_mem_truncated hb
            rcases List.mem_cons.1 hb2 with hb' | hb'
            · rw [hb']
            · exact (h q hq b hb').trans hk

theorem keyMatchInv_applyOps (ops : List StoreOp) : ∀ s : GlobalState,
    keyMatchInv s → keyMatchInv (applyOps s ops) := by
  induction ops with
  | nil => intro s h; exact h
  | cons op rest ih =>
      intro s h
      exact ih (applyOp s op) (keyMatchInv_applyOp s op h)

theorem nodupKeys_applyOp (s : GlobalState) (op : StoreOp)
    (h : (repoKeys s.repositories).Nodup) :
    (repoKeys (applyOp s op).repositories).Nodup := by
  cases op with
  | register repo => exact nodup_repoKeys_insertRepo _ _ _ h
  | setStatus k0 st =>
      show (repoKeys (s.update_repository_status k0 st).repositories).Nodup
      rw [show (s.update_repository_status k0 st).repositories =
        updateRepo s.repositories k0
          (fun repo_state => { repo_state with current_status := st }) from rfl]
      rw [repoKeys_updateRepo]
      exact h
  | setRepoInfo k0 br cm =>
      show (repoKeys (s.update_repository_info k0 br cm).repositories).Nodup
      rw [show (s.update_repository_info k0 br cm).repositories =
        updateRepo s.repositories k0
          (fun repo_state => { repo_state with repo_info :=
            { repo_state.repo_info with branch := br, last_commit := cm } }) from rfl]
      rw [repoKeys_updateRepo]
      exact h
  | appendBuild b0 =>
      show (repoKeys (s.add_build b0).repositories).Nodup
      cases hcase : getRepo? s.repositories b0.repository_id with
      | none =>
          rw [repositories_add_build_none s b0 hcase]
          exact h
      | some rs0 =>
          rw [repositories_add_build_some s b0 rs0 hcase, repoKeys_updateRepo]
          exact h

theorem nodupKeys_applyOps (ops : List StoreOp) : ∀ s : GlobalState,
    (repoKeys s.repositories).Nodup →
    (repoKeys (applyOps s ops).repositories).Nodup := by
  induction ops with
  | nil => intro s h; exact h
  | cons op rest ih =>
      intro s h
      exact ih (applyOp s op) (nodupKeys_applyOp s op h)

/-- With duplicate-free keys, one key holds at most one value. -/
theorem value_unique_of_nodup {m : List (Nat × RepositoryState)} {k : Nat}
    {v w : RepositoryState} (hnd : (repoKeys m).Nodup)
    (hv : (k, v) ∈ m) (hw : (k, w) ∈ m) : v = w := by
  have h1 := mem_to_getRepo? hnd hv
  have h2 := mem_to_getRepo? hnd hw
  exact Option.some.inj (h1.symm.trans h2)

theorem mem_take_append {α : Type} (A B : List α) (b : α) (n : Nat) (hA : b ∉ A) :
    b ∈ (A ++ b :: B).take n ↔ A.length < n := by
  rw [List.take_append_eq_append_take]
  constructor
  · intro h
    rcases List.mem_append.1 h with h' | h'
    · exact absurd (List.take_subset n A h') hA
    · cases hn : n - A.length with
      | zero =>
          rw [hn] at h'
          simp at h'
      | succ m => omega
  · intro h
    apply List.mem_append.2
    right
    cases hn : n - A.length with
    | zero => omega
    | succ m =>
        rw [List.take_succ_cons]
        exact List.mem_cons_self _ _

/-! ### Command executor characterization -/

theorem runCommandsLoop_char (steps : List (String × CmdOutcome)) :
    runCommandsLoop steps =
      (transcriptOf (attempted steps), steps.all (fun p => p.2.ok)) := by
  induction steps with
  | nil => rfl
  | cons p rest ih =>
      rcases p with ⟨cmd, out⟩
      by_cases hok : out.ok
      · simp [runCommandsLoop, attempted, transcriptOf, hok, ih]
      · simp [runCommandsLoop, attempted, transcriptOf, hok]

theorem attempted_eq (steps : List (String × CmdOutcome)) :
    attempted steps =
      steps.takeWhile (fun p => p.2.ok) ++
        (steps.dropWhile (fun p => p.2.ok)).take 1 := by
  induction steps with
  | nil => rfl
  | cons p rest ih =>
      rcases p with ⟨cmd, out⟩
      by_cases hok : out.ok
      · simp [attempted, List.takeWhile_cons, List.dropWhile_cons, hok, ih]
      · simp [attempted, List.takeWhile_cons, List.dropWhile_cons, hok]

theorem attempted_append_ok (pre steps : List (String × CmdOutcome))
    (hpre : ∀ p ∈ pre, p.2.ok = true) :
    attempted (pre ++ steps) = pre ++ attempted steps := by
  induction pre with
  | nil => rfl
  | cons p rest ih =>
      rcases p with ⟨cmd, out⟩
      have hok : out.ok = true := hpre (cmd, out) (List.mem_cons_self _ _)
      have hrest : ∀ q ∈ rest, q.2.ok = true := fun q hq => hpre q (List.mem_cons_of_mem _ hq)
      simp [attempted, hok, ih hrest]

theorem transcriptOf_append (A B : List (String × CmdOutcome)) :
    transcriptOf (A ++ B) = transcriptOf A ++ transcriptOf B := by
  induction A with
  | nil => simp [transcriptOf]
  | cons p rest ih =>
      rcases p with ⟨cmd, out⟩
      simp [transcriptOf, ih, String.append_assoc]

theorem appendedBuilds_map (bs : List BuildResult) :
    appendedBuilds (bs.map StoreOp.appendBuild) = bs := by
  induction bs with
  | nil => rfl
  | cons b rest ih => simp [appendedBuilds, ih]

theorem WFops_map_append (bs : List BuildResult) : ∀ regs : List Nat,
    (∀ b ∈ bs, b.repository_id ∈ regs) →
    WFops regs (bs.map StoreOp.appendBuild) = true := by
  induction bs with
  | nil => intro regs _; rfl
  | cons b rest ih =>
      intro regs hall
      have hb : b.repository_id ∈ regs := hall b (List.mem_cons_self _ _)
      have hrest : ∀ x ∈ rest, x.repository_id ∈ regs :=
        fun x hx => hall x (List.mem_cons_of_mem _ hx)
      simp [WFops, hb, ih regs hrest]

/-! ### Claim theorems -/

/-- C1, counterexample: the claim says `register` is a silent no-op when an
entry for the repository id already exists, leaving the existing
`RepositoryState` unchanged. In the code, `add_repository_state` ends in
`self.repositories.insert(repository.id, state)`, and `HashMap::insert`
replaces the existing value: a status previously set to `Idle` comes back as
`Starting...` after re-registering the same repository. -/
theorem claim_C1_counterexample :
    (getRepo? stateC1.repositories repoA.id).map (fun rs => rs.current_status)
        = some "Idle" ∧
    (getRepo? (stateC1.add_repository_state repoA).repositories repoA.id).map
        (fun rs => rs.current_status) = some "Starting..." ∧
    (getRepo? (stateC1.add_repository_state repoA).repositories repoA.id).map
        (fun rs => rs.current_status)
      ≠ (getRepo? stateC1.repositories repoA.id).map (fun rs => rs.current_status) := by
  refine ⟨rfl, rfl, ?_⟩
  decide

/-- C1, amended: `register` always installs a fresh `RepositoryState` (status
`Starting...`, empty history, repo info rebuilt from the given repository)
under the repository id, overwriting any existing entry for that id; entries
under other ids and the global feed are unchanged. -/
theorem claim_C1 (s : GlobalState) (repo : Repository) :
    getRepo? (s.add_repository_state repo).repositories repo.id
      = some (initialRepositoryState repo) ∧
    (∀ j, j ≠ repo.id →
      getRepo? (s.add_repository_state repo).repositories j = getRepo? s.repositories j) ∧
    (s.add_repository_state repo).recent_builds = s.recent_builds := by
  refine ⟨?_, ?_, rfl⟩
  · rw [getRepo?_add_repository_state, if_pos rfl]
  · intro j hj
    rw [getRepo?_add_repository_state, if_neg hj]

/-- C1 witness: registering `repoA` over `stateC1` rebuilds entry 1 and leaves
the (absent) entry 2 alone. -/
theorem claim_C1_witness :
    getRepo? (stateC1.add_repository_state repoA).repositories 2
      = getRepo? stateC1.repositories 2 :=
  (claim_C1 stateC1 repoA).2.1 2 (by decide)

/-- C8: running the Command Executor on an empty command list returns
success = true and an empty transcript. -/
theorem claim_C8 (runner : CiRunner) (s : GlobalState) (commit_hash : String)
    (ts d : Nat) :
    (runner.run_commands s [] commit_hash ts d).2.success = true ∧
    (runner.run_commands s [] commit_hash ts d).2.output = "" :=
  ⟨rfl, rfl⟩

/-- C10: `append_build` with an unregistered repository id leaves the
repository map untouched, still inserts the result at the front of the global
feed, and (when the build value was not already stored anywhere) the feed
entry appears in no RepositoryState history. -/
theorem claim_C10 (s : GlobalState) (b : BuildResult)
    (h : getRepo? s.repositories b.repository_id = none) :
    (s.add_build b).repositories = s.repositories ∧
    (s.add_build b).recent_builds = (b :: s.recent_builds).take 100 ∧
    b ∈ (s.add_build b).recent_builds ∧
    ((∀ p ∈ s.repositories, b ∉ p.2.builds) →
      ∀ p ∈ (s.add_build b).repositories, b ∉ p.2.builds) := by
  refine ⟨repositories_add_build_none s b h, recent_builds_add_build s b, ?_, ?_⟩
  · rw [recent_builds_add_build]
    exact List.mem_cons_self _ _
  · intro hnone p hp
    rw [repositories_add_build_none s b h] at hp
    exact hnone p hp

/-- C10 witness: appending `orphanBuild` (repository id 42, never registered)
to the empty Store puts it in the feed and in no repository history. -/
theorem claim_C10_witness :
    (GlobalState.new.add_build orphanBuild).repositories = GlobalState.new.repositories ∧
    orphanBuild ∈ (GlobalState.new.add_build orphanBuild).recent_builds :=
  ⟨(claim_C10 GlobalState.new orphanBuild rfl).1,
    (claim_C10 GlobalState.new orphanBuild rfl).2.2.1⟩

/-- C6: when fetching the latest commit fails, one loop iteration only writes
`Error: {message}` as the repository status: the runner (and its remembered
last commit) is returned unchanged, no build is appended, and every
repository entry keeps its history and repo info. -/
theorem claim_C6 (runner : CiRunner) (s : GlobalState) (e : String)
    (steps : List (String × CmdOutcome)) (br : Option String) (ts d : Nat) :
    (runner.run_tick s (.error e) steps br ts d).1 = runner ∧
    (runner.run_tick s (.error e) steps br ts d).2 =
      s.update_repository_status runner.repository.id ("Error: " ++ e) ∧
    (runner.run_tick s (.error e) steps br ts d).2.recent_builds = s.recent_builds ∧
    (∀ j, (getRepo? (runner.run_tick s (.error e) steps br ts d).2.repositories j).map
        (fun rs => rs.builds) = (getRepo? s.repositories j).map (fun rs => rs.builds)) ∧
    (∀ j, (getRepo? (runner.run_tick s (.error e) steps br ts d).2.repositories j).map
        (fun rs => rs.repo_info) = (getRepo? s.repositories j).map (fun rs => rs.repo_info)) ∧
    ((getRepo? s.repositories runner.repository.id).isSome →
      (getRepo? (runner.run_tick s (.error e) steps br ts d).2.repositories
          runner.repository.id).map (fun rs => rs.current_status)
        = some ("Error: " ++ e)) := by
  have hrt : runner.run_tick s (.error e) steps br ts d =
      (runner, s.update_repository_status runner.repository.id ("Error: " ++ e)) := rfl
  rw [hrt]
  refine ⟨rfl, rfl, rfl, ?_, ?_, ?_⟩
  · intro j
    rw [getRepo?_update_repository_status]
    by_cases hj : j = runner.repository.id
    · rw [if_pos hj]
      cases getRepo? s.repositories j <;> rfl
    · rw [if_neg hj]
  · intro j
    rw [getRepo?_update_repository_status]
    by_cases hj : j = runner.repository.id
    · rw [if_pos hj]
      cases getRepo? s.repositories j <;> rfl
    · rw [if_neg hj]
  · intro hs
    rw [getRepo?_update_repository_status, if_pos rfl]
    cases hcase : getRepo? s.repositories runner.repository.id with
    | none => rw [hcase] at hs; simp at hs
    | some rs => rfl

/-- C6 witness: a failed commit fetch against the registered `repoA` leaves
the feed empty and sets the status to the error message. -/
theorem claim_C6_witness :
    (runnerA.run_tick (GlobalState.new.add_repository_state repoA)
        (.error "failed to get commit") [] none 0 0).2.recent_builds
      = (GlobalState.new.add_repository_state repoA).recent_builds ∧
    (getRepo? (runnerA.run_tick (GlobalState.new.add_repository_state repoA)
        (.error "failed to get commit") [] none 0 0).2.repositories
        runnerA.repository.id).map (fun rs => rs.current_status)
      = some ("Error: " ++ "failed to get commit") :=
  ⟨(claim_C6 runnerA (GlobalState.new.add_repository_state repoA)
      "failed to get commit" [] none 0 0).2.2.1,
    (claim_C6 runnerA (GlobalState.new.add_repository_state repoA)
      "failed to get commit" [] none 0 0).2.2.2.2.2 (by decide)⟩

/-- C3: the Command Executor attempts commands strictly in order up to and
including the first failing one (`attempted`), the transcript is exactly the
concatenation of one section per attempted command in execution order (so no
section for any command after the failing one), and the success flag is true
exactly when every listed step succeeded. -/
theorem claim_C3 (runner : CiRunner) (s : GlobalState)
    (steps : List (String × CmdOutcome)) (commit_hash : String) (ts d : Nat) :
    (runner.run_commands s steps commit_hash ts d).2.output
      = transcriptOf (attempted steps) ∧
    (runner.run_commands s steps commit_hash ts d).2.success
      = steps.all (fun p => p.2.ok) ∧
    attempted steps = steps.takeWhile (fun p => p.2.ok) ++
      (steps.dropWhile (fun p => p.2.ok)).take 1 := by
  refine ⟨?_, ?_, attempted_eq steps⟩
  · show (runCommandsLoop steps).1 = transcriptOf (attempted steps)
    rw [runCommandsLoop_char]
  · show (runCommandsLoop steps).2 = steps.all (fun p => p.2.ok)
    rw [runCommandsLoop_char]

theorem check_and_build_feed (runner : CiRunner) (s : GlobalState) (c : String)
    (steps : List (String × CmdOutcome)) (br : Option String) (ts d : Nat)
    (h : ¬ runner.last_commit = some c) :
    (runner.check_and_build s (.ok c) steps br ts d).state.recent_builds =
      ((({ runner with build_counter := runner.build_counter + 1 }).run_commands
          s steps c ts d).2 :: s.recent_builds).take 100 := by
  cases br with
  | none =>
      simp only [CiRunner.check_and_build, if_neg h]
      rw [recent_builds_update_repository_status, recent_builds_add_build]
      rfl
  | some branch =>
      simp only [CiRunner.check_and_build, if_neg h]
      rw [recent_builds_update_repository_info, recent_builds_update_repository_status,
        recent_builds_add_build]
      rfl

/-- C4: for a successfully observed commit, `check_and_build` triggers a build
exactly when the observed hash differs from the remembered one: an unchanged
hash is a strict no-op (same runner, same state, no error), a changed hash
increments the build counter, remembers the new hash, and records the new
`BuildResult` at the front of the feed; the very first observation (remembered
hash `none`) always counts as changed. -/
theorem claim_C4 (runner : CiRunner) (s : GlobalState) (c : String)
    (steps : List (String × CmdOutcome)) (br : Option String) (ts d : Nat) :
    (runner.last_commit = some c →
      runner.check_and_build s (.ok c) steps br ts d =
        { runner := runner, state := s, err := none }) ∧
    (runner.last_commit ≠ some c →
      (runner.check_and_build s (.ok c) steps br ts d).runner.build_counter
        = runner.build_counter + 1 ∧
      (runner.check_and_build s (.ok c) steps br ts d).runner.last_commit = some c ∧
      (runner.check_and_build s (.ok c) steps br ts d).state.recent_builds =
        ((({ runner with build_counter := runner.build_counter + 1 }).run_commands
            s steps c ts d).2 :: s.recent_builds).take 100 ∧
      (runner.check_and_build s (.ok c) steps br ts d).err = none) ∧
    (runner.last_commit = none → runner.last_commit ≠ some c) := by
  refine ⟨?_, ?_, ?_⟩
  · intro h
    simp [CiRunner.check_and_build, h]
  · intro h
    refine ⟨?_, ?_, check_and_build_feed runner s c steps br ts d h, ?_⟩
    · simp [CiRunner.check_and_build, if_neg h]
    · simp [CiRunner.check_and_build, if_neg h]
    · simp [CiRunner.check_and_build, if_neg h]
  · intro h hc
    rw [h] at hc
    simp at hc

/-- C4 witness: the first observation of commit `deadbeef` by a fresh Monitor
triggers a build; a Monitor already remembering `deadbeef` does nothing. -/
theorem claim_C4_witness :
    ((runnerA.check_and_build (GlobalState.new.add_repository_state repoA)
        (.ok "deadbeef") [] none 0 0).runner.build_counter
      = runnerA.build_counter + 1 ∧
    (runnerA.check_and_build (GlobalState.new.add_repository_state repoA)
        (.ok "deadbeef") [] none 0 0).runner.last_commit = some "deadbeef" ∧
    (runnerA.check_and_build (GlobalState.new.add_repository_state repoA)
        (.ok "deadbeef") [] none 0 0).state.recent_builds =
      ((({ runnerA with build_counter := runnerA.build_counter + 1 }).run_commands
          (GlobalState.new.add_repository_state repoA) [] "deadbeef" 0 0).2
        :: (GlobalState.new.add_repository_state repoA).recent_builds).take 100 ∧
    (runnerA.check_and_build (GlobalState.new.add_repository_state repoA)
        (.ok "deadbeef") [] none 0 0).err = none) ∧
    ({ runnerA with last_commit := some "deadbeef" } : CiRunner).check_and_build
        (GlobalState.new.add_repository_state repoA) (.ok "deadbeef") [] none 0 0 =
      { runner := { runnerA with last_commit := some "deadbeef" }
        state := GlobalState.new.add_repository_state repoA
        err := none } :=
  ⟨(claim_C4 runnerA (GlobalState.new.add_repository_state repoA)
      "deadbeef" [] none 0 0).2.1 (by decide),
    (claim_C4 { runnerA with last_commit := some "deadbeef" }
      (GlobalState.new.add_repository_state repoA) "deadbeef" [] none 0 0).1 rfl⟩

/-- C7: a step whose process fails to spawn is recorded as a failed step: the
build fails (exactly as for a non-zero exit), the transcript ends with the
explanatory `Failed to execute {cmd}: {e}` line for that step and contains
nothing for later steps, the Monitor does not abort (`err = none`), and the
failed result is still recorded at the front of the Store feed. -/
theorem claim_C7 (runner : CiRunner) (s : GlobalState)
    (pre : List (String × CmdOutcome)) (cmd e : String)
    (post : List (String × CmdOutcome)) (c : String) (br : Option String) (ts d : Nat)
    (hpre : ∀ p ∈ pre, p.2.ok = true)
    (hnew : runner.last_commit ≠ some c) :
    (({ runner with build_counter := runner.build_counter + 1 }).run_commands
        s (pre ++ (cmd, CmdOutcome.spawnErr e) :: post) c ts d).2.success = false ∧
    (({ runner with build_counter := runner.build_counter + 1 }).run_commands
        s (pre ++ (cmd, CmdOutcome.spawnErr e) :: post) c ts d).2.output
      = transcriptOf (pre ++ [(cmd, CmdOutcome.spawnErr e)]) ∧
    sectionFor cmd (CmdOutcome.spawnErr e)
      = "Failed to execute " ++ cmd ++ ": " ++ e ++ "\n" ∧
    (runner.check_and_build s (.ok c) (pre ++ (cmd, CmdOutcome.spawnErr e) :: post)
        br ts d).err = none ∧
    (runner.check_and_build s (.ok c) (pre ++ (cmd, CmdOutcome.spawnErr e) :: post)
        br ts d).state.recent_builds.head?
      = some (({ runner with build_counter := runner.build_counter + 1 }).run_commands
          s (pre ++ (cmd, CmdOutcome.spawnErr e) :: post) c ts d).2 := by
  have hatt : attempted (pre ++ (cmd, CmdOutcome.spawnErr e) :: post)
      = pre ++ [(cmd, CmdOutcome.spawnErr e)] := by
    rw [attempted_append_ok pre _ hpre]
    rfl
  refine ⟨?_, ?_, rfl, ?_, ?_⟩
  · show (runCommandsLoop (pre ++ (cmd, CmdOutcome.spawnErr e) :: post)).2 = false
    rw [runCommandsLoop_char]
    simp [CmdOutcome.ok]
  · show (runCommandsLoop (pre ++ (cmd, CmdOutcome.spawnErr e) :: post)).1
      = transcriptOf (pre ++ [(cmd, CmdOutcome.spawnErr e)])
    rw [runCommandsLoop_char, hatt]
  · simp [CiRunner.check_and_build, if_neg hnew]
  · rw [check_and_build_feed runner s c _ br ts d hnew]
    rfl

/-- C7 witness: a spawn failure in the second of three steps fails the build,
keeps the Monitor alive and is recorded in the feed. -/
theorem claim_C7_witness :
    (({ runnerA with build_counter := runnerA.build_counter + 1 }).run_commands
        (GlobalState.new.add_repository_state repoA)
        ([("ok", CmdOutcome.exited "out" "" true)] ++
          ("bad", CmdOutcome.spawnErr "no such file") ::
            [("next", CmdOutcome.exited "" "" true)]) "deadbeef" 0 0).2.success = false ∧
    (runnerA.check_and_build (GlobalState.new.add_repository_state repoA)
        (.ok "deadbeef")
        ([("ok", CmdOutcome.exited "out" "" true)] ++
          ("bad", CmdOutcome.spawnErr "no such file") ::
            [("next", CmdOutcome.exited "" "" true)]) none 0 0).err = none :=
  ⟨(claim_C7 runnerA (GlobalState.new.add_repository_state repoA)
      [("ok", CmdOutcome.exited "out" "" true)] "bad" "no such file"
      [("next", CmdOutcome.exited "" "" true)] "deadbeef" none 0 0
      (by decide) (by decide)).1,
    (claim_C7 runnerA (GlobalState.new.add_repository_state repoA)
      [("ok", CmdOutcome.exited "out" "" true)] "bad" "no such file"
      [("next", CmdOutcome.exited "" "" true)] "deadbeef" none 0 0
      (by decide) (by decide)).2.2.2.1⟩

theorem find?_first (l : List BuildResult) (i : Nat) (b : BuildResult) :
    l.find? (fun x => x.id == i) = some b ↔
      ∃ L R, l = L ++ b :: R ∧ b.id = i ∧ ∀ x ∈ L, x.id ≠ i := by
  induction l with
  | nil =>
      constructor
      · intro h
        simp at h
      · rintro ⟨L, R, hl, _, _⟩
        cases L <;> simp at hl
  | cons a rest ih =>
      by_cases ha : a.id = i
      · rw [List.find?_cons_of_pos _ (by simp [ha])]
        constructor
        · intro h
          injection h with h
          exact ⟨[], rest, by rw [h]; rfl, h ▸ ha, by simp⟩
        · rintro ⟨L, R, hl, hbi, hL⟩
          cases L with
          | nil =>
              simp at hl
              rw [hl.1]
          | cons x L2 =>
              simp at hl
              have hx : x.id ≠ i := hL x (List.mem_cons_self _ _)
              rw [← hl.1] at hx
              exact absurd ha hx
      · rw [List.find?_cons_of_neg _ (by simp [ha])]
        rw [ih]
        constructor
        · rintro ⟨L, R, hl, hbi, hL⟩
          refine ⟨a :: L, R, by rw [List.cons_append, hl], hbi, ?_⟩
          intro x hx
          rcases List.mem_cons.1 hx with hx' | hx'
          · rw [hx']
            exact ha
          · exact hL x hx'
        · rintro ⟨L, R, hl, hbi, hL⟩
          cases L with
          | nil =>
              simp at hl
              rw [hl.1] at ha
              exact absurd hbi ha
          | cons x L2 =>
              simp at hl
              exact ⟨L2, R, hl.2, hbi, fun y hy => hL y (List.mem_cons_of_mem _ hy)⟩

/-- C9: `/api/build/{id}` returns the first `BuildResult` in the global feed
(scanned most-recent-first) whose sequence number equals the requested id —
which is also what resolves a collision between two repositories sharing a
sequence number — and the `Build not found` error payload exactly when no
feed entry carries that id. -/
theorem claim_C9 (i : Nat) (s : GlobalState) :
    (∀ b, get_build_detail i s = .found b ↔
      ∃ L R, s.recent_builds = L ++ b :: R ∧ b.id = i ∧ ∀ x ∈ L, x.id ≠ i) ∧
    (get_build_detail i s = .notFound ↔ ∀ x ∈ s.recent_builds, x.id ≠ i) := by
  constructor
  · intro b
    rw [← find?_first]
    unfold get_build_detail
    cases h : s.recent_builds.find? (fun x => x.id == i) with
    | none => simp [h]
    | some x => simp [h]
  · unfold get_build_detail
    cases h : s.recent_builds.find? (fun x => x.id == i) with
    | none =>
        rw [List.find?_eq_none] at h
        simp only [reduceCtorEq]
        constructor
        · intro _ x hx
          have := h x hx
          simpa using this
        · intro _
          trivial
    | some x =>
        have hmem : x ∈ s.recent_builds := List.mem_of_find?_eq_some h
        have hid : x.id = i := by simpa using List.find?_some h
        constructor
        · intro hcon
          exact absurd hcon (by simp)
        · intro hall
          exact absurd hid (hall x hmem)

/-- C9 witness: two builds sharing sequence number 1 from repositories 1 and
2; the lookup returns the one nearer the front of the feed. -/
theorem claim_C9_witness :
    get_build_detail 1
        { repositories := [], recent_builds := [mkBuild 1 2, mkBuild 1 1] }
      = .found (mkBuild 1 2) :=
  ((claim_C9 1 { repositories := [], recent_builds := [mkBuild 1 2, mkBuild 1 1] }).1
      (mkBuild 1 2)).mpr ⟨[], [mkBuild 1 1], rfl, rfl, by simp⟩

theorem buildsFor_eq_self (bs : List BuildResult) (r : Nat) :
    (∀ b ∈ bs, b.repository_id = r) → buildsFor r bs = bs := by
  induction bs with
  | nil => intro _; rfl
  | cons b rest ih =>
      intro hall
      have hb := hall b (List.mem_cons_self _ _)
      have hrest : ∀ x ∈ rest, x.repository_id = r :=
        fun x hx => hall x (List.mem_cons_of_mem _ hx)
      show List.filter (fun x => decide (x.repository_id = r)) (b :: rest) = b :: rest
      simp only [List.filter_cons]
      rw [if_pos (by simp [hb])]
      have ih2 : List.filter (fun x => decide (x.repository_id = r)) rest = rest := ih hrest
      rw [ih2]

/-- C5: `append_build` inserts at the front of the repository history and of
the global feed (each then truncated to its cap), and after any sequence of
appends for one registered repository the history holds exactly the 50 most
recent results and the feed the 100 most recent (`(bs.reverse).take n` is the
list of the n most recent appends, most recent first). -/
theorem claim_C5 (repo : Repository) (bs : List BuildResult)
    (hall : ∀ b ∈ bs, b.repository_id = repo.id) :
    (∀ (t : GlobalState) (b : BuildResult) (rs : RepositoryState),
        getRepo? t.repositories b.repository_id = some rs →
        (getRepo? (t.add_build b).repositories b.repository_id).map (fun x => x.builds)
          = some ((b :: rs.builds).take 50) ∧
        (t.add_build b).recent_builds = (b :: t.recent_builds).take 100) ∧
    (getRepo? (applyOps (GlobalState.new.add_repository_state repo)
        (bs.map StoreOp.appendBuild)).repositories repo.id).map (fun rs => rs.builds)
      = some ((bs.reverse).take 50) ∧
    (applyOps (GlobalState.new.add_repository_state repo)
        (bs.map StoreOp.appendBuild)).recent_builds = (bs.reverse).take 100 := by
  refine ⟨?_, ?_, ?_⟩
  · intro t b rs h
    constructor
    · rw [getRepo?_add_build_self t b rs h]
      rfl
    · exact recent_builds_add_build t b
  · have hregs : ∀ k, (getRepo?
        (GlobalState.new.add_repository_state repo).repositories k).isSome ↔
        k ∈ [repo.id] := by
      intro k
      rw [getRepo?_add_repository_state]
      by_cases hk : k = repo.id
      · simp [hk]
      · simp [hk, GlobalState.new, getRepo?]
    have hwf : WFops [repo.id] (bs.map StoreOp.appendBuild) = true :=
      WFops_map_append bs [repo.id]
        (fun b hb => by rw [hall b hb]; exact List.mem_cons_self _ _)
    have hpast : ∀ k rs, getRepo?
        (GlobalState.new.add_repository_state repo).repositories k = some rs →
        rs.builds = (((fun (_ : Nat) => ([] : List BuildResult)) k).reverse).take 50 := by
      intro k rs h
      rw [getRepo?_add_repository_state] at h
      by_cases hk : k = repo.id
      · rw [if_pos hk] at h
        injection h with h
        rw [← h]
        rfl
      · rw [if_neg hk] at h
        simp [GlobalState.new, getRepo?] at h
    have hsome : (getRepo? (applyOps (GlobalState.new.add_repository_state repo)
        (bs.map StoreOp.appendBuild)).repositories repo.id).isSome := by
      apply isSome_applyOps
      rw [getRepo?_add_repository_state, if_pos rfl]
      rfl
    cases hcase : getRepo? (applyOps (GlobalState.new.add_repository_state repo)
        (bs.map StoreOp.appendBuild)).repositories repo.id with
    | none =>
        rw [hcase] at hsome
        simp at hsome
    | some rs' =>
        have hchar := history_char (bs.map StoreOp.appendBuild)
          (GlobalState.new.add_repository_state repo) [repo.id] (fun _ => [])
          hregs hwf hpast repo.id rs' hcase
        rw [appendedBuilds_map, buildsFor_eq_self bs repo.id hall] at hchar
        simp only [Option.map_some']
        rw [hchar]
        simp
  · have h0 : (GlobalState.new.add_repository_state repo).recent_builds.length ≤ 100 := by
      simp [recent_builds_add_repository_state, GlobalState.new]
    rw [feed_char (bs.map StoreOp.appendBuild) _ h0, appendedBuilds_map]
    simp [recent_builds_add_repository_state, GlobalState.new]

/-- C5 witness: 101 appends for repository 1 leave exactly the 50 most recent
in its history and exactly the 100 most recent in the global feed. -/
theorem claim_C5_witness :
    (getRepo? (applyOps (GlobalState.new.add_repository_state repoA)
        (bs101.map StoreOp.appendBuild)).repositories repoA.id).map (fun rs => rs.builds)
      = some ((bs101.reverse).take 50) ∧
    (applyOps (GlobalState.new.add_repository_state repoA)
        (bs101.map StoreOp.appendBuild)).recent_builds = (bs101.reverse).take 100 :=
  ⟨(claim_C5 repoA bs101 (by
      intro b hb
      simp only [bs101] at hb
      rcases List.mem_map.1 hb with ⟨n, _, rfl⟩
      rfl)).2.1,
    (claim_C5 repoA bs101 (by
      intro b hb
      simp only [bs101] at hb
      rcases List.mem_map.1 hb with ⟨n, _, rfl⟩
      rfl)).2.2⟩

/-- C2, counterexample: the invariant is not preserved by every sequence of
Store operations. Appending `orphanBuild` (repository id 42, never
registered) to the empty Store puts it in the GlobalFeed while the repository
map stays empty, so it appears in zero (not exactly one) repository
histories — and not because of cap eviction: it is the only append, zero
later builds of its repository were appended (0 < 50). -/
theorem claim_C2_counterexample :
    orphanBuild ∈ (applyOps GlobalState.new
        [StoreOp.appendBuild orphanBuild]).recent_builds ∧
    appendedBuilds [StoreOp.appendBuild orphanBuild] = [] ++ orphanBuild :: [] ∧
    (buildsFor orphanBuild.repository_id ([] : List BuildResult)).length < 50 ∧
    ¬ ∃ p : Nat × RepositoryState,
        p ∈ (applyOps GlobalState.new [StoreOp.appendBuild orphanBuild]).repositories ∧
        orphanBuild ∈ p.2.builds := by
  refine ⟨by decide, rfl, by decide, ?_⟩
  rintro ⟨p, hp, _⟩
  have he : (applyOps GlobalState.new [StoreOp.appendBuild orphanBuild]).repositories
      = [] := rfl
  rw [he] at hp
  simp at hp

/-- C2, amended: for operation sequences in which every appended build's
repository id was registered first and no id is registered twice (`WFops`),
and in which appended builds are pairwise distinct, every `BuildResult` in the
GlobalFeed appears in exactly one RepositoryState history *unless* it was
evicted from that history by the 50-cap, i.e. exactly when fewer than 50
builds of the same repository were appended after it. -/
theorem claim_C2 (ops : List StoreOp) (b : BuildResult) (L R : List BuildResult)
    (hwf : WFops [] ops = true)
    (hnodup : (appendedBuilds ops).Nodup)
    (hsplit : appendedBuilds ops = L ++ b :: R)
    (hfeed : b ∈ (applyOps GlobalState.new ops).recent_builds) :
    (∃! p : Nat × RepositoryState,
        p ∈ (applyOps GlobalState.new ops).repositories ∧ b ∈ p.2.builds)
      ↔ (buildsFor b.repository_id R).length < 50 := by
  have hregs0 : ∀ k, (getRepo? GlobalState.new.repositories k).isSome ↔
      k ∈ ([] : List Nat) := by
    intro k
    simp [GlobalState.new, getRepo?]
  have hbmem : b ∈ appendedBuilds ops := by
    rw [hsplit]
    exact List.mem_append.2 (Or.inr (List.mem_cons_self _ _))
  have hsome := appended_registered ops GlobalState.new [] hregs0 hwf b hbmem
  rcases Option.isSome_iff_exists.1 hsome with ⟨rs, hrs⟩
  have hpast0 : ∀ k rs0, getRepo? GlobalState.new.repositories k = some rs0 →
      rs0.builds = (((fun (_ : Nat) => ([] : List BuildResult)) k).reverse).take 50 := by
    intro k rs0 h
    simp [GlobalState.new, getRepo?] at h
  have hchar := history_char ops GlobalState.new [] (fun _ => [])
    hregs0 hwf hpast0 b.repository_id rs hrs
  rw [hsplit] at hchar
  have hfil : buildsFor b.repository_id (L ++ b :: R)
      = buildsFor b.repository_id L ++ b :: buildsFor b.repository_id R := by
    simp [buildsFor, List.filter_append]
  rw [hfil] at hchar
  simp only [ite_self, List.nil_append] at hchar
  have hrev : (buildsFor b.repository_id L ++ b :: buildsFor b.repository_id R).reverse
      = (buildsFor b.repository_id R).reverse ++ b :: (buildsFor b.repository_id L).reverse := by
    rw [List.reverse_append, List.reverse_cons, List.append_assoc, List.singleton_append]
  rw [hrev] at hchar
  have hnd2 : b ∉ L ∧ b ∉ R := by
    rw [hsplit] at hnodup
    have hmid := List.nodup_cons.1 (List.nodup_middle.1 hnodup)
    constructor
    · intro hb
      exact hmid.1 (List.mem_append.2 (Or.inl hb))
    · intro hb
      exact hmid.1 (List.mem_append.2 (Or.inr hb))
  have hbR : b ∉ (buildsFor b.repository_id R).reverse := by
    intro hb
    exact hnd2.2 (List.mem_of_mem_filter (List.mem_reverse.1 hb))
  have hmemiff : b ∈ rs.builds ↔ (buildsFor b.repository_id R).length < 50 := by
    rw [hchar, ← List.length_reverse (buildsFor b.repository_id R)]
    exact mem_take_append _ _ b 50 hbR
  have hkmi : keyMatchInv (applyOps GlobalState.new ops) :=
    keyMatchInv_applyOps ops GlobalState.new
      (by intro p hp; simp [GlobalState.new] at hp)
  have hnd : (repoKeys (applyOps GlobalState.new ops).repositories).Nodup :=
    nodupKeys_applyOps ops GlobalState.new (by simp [GlobalState.new, repoKeys])
  constructor
  · rintro ⟨p, ⟨hpmem, hpb⟩, _⟩
    have hp1 : b.repository_id = p.1 := hkmi p hpmem b hpb
    have hpget : getRepo? (applyOps GlobalState.new ops).repositories p.1 = some p.2 :=
      mem_to_getRepo? hnd (show (p.1, p.2) ∈ _ by rw [Prod.mk.eta]; exact hpmem)
    rw [← hp1, hrs] at hpget
    have hp2 : p.2 = rs := (Option.some.inj hpget).symm
    apply hmemiff.1
    rw [← hp2]
    exact hpb
  · intro hlen
    have hbin : b ∈ rs.builds := hmemiff.2 hlen
    refine ⟨(b.repository_id, rs), ⟨getRepo?_eq_some_mem hrs, hbin⟩, ?_⟩
    rintro q ⟨hqmem, hqb⟩
    have hq1 : b.repository_id = q.1 := hkmi q hqmem b hqb
    have hqget : getRepo? (applyOps GlobalState.new ops).repositories q.1 = some q.2 :=
      mem_to_getRepo? hnd (show (q.1, q.2) ∈ _ by rw [Prod.mk.eta]; exact hqmem)
    rw [← hq1, hrs] at hqget
    have hq2 : q.2 = rs := (Option.some.inj hqget).symm
    rcases q with ⟨q1, q2⟩
    simp only at hq1 hq2
    rw [← hq1, hq2]

/-- C2 witness: after registering `repoA` and appending one build for it, that
feed entry lies in exactly one repository history. -/
theorem claim_C2_witness :
    ∃! p : Nat × RepositoryState,
      p ∈ (applyOps GlobalState.new
          [StoreOp.register repoA, StoreOp.appendBuild (mkBuild 1 1)]).repositories ∧
      mkBuild 1 1 ∈ p.2.builds :=
  (claim_C2 [StoreOp.register repoA, StoreOp.appendBuild (mkBuild 1 1)]
      (mkBuild 1 1) [] [] (by decide) (by decide) rfl (by decide)).2 (by decide)

end TurbulentCI

